import Mathlib

/-!
Verification of the Mandelbrot grayscale image generator (src/main.cpp).

The C++ `double` values are embedded as exact rationals (ℚ); the magnitude
test `std::abs(z) > size` is embedded by the mathematically equivalent
comparison `size < 0 ∨ size² < re² + im²` (for real arithmetic,
`sqrt(re² + im²) > size` holds iff `size` is negative or `size² < re² + im²`).
C++ `int` values are embedded as ℤ, and the implicit `int → uint8_t`
narrowing in the buffer write is embedded as reduction modulo 256, which is
the conversion rule the C++ standard prescribes for unsigned targets.
The `uint32_t` arithmetic of the offset template is embedded as reduction
modulo `2^32` (`offset_in_interleaved_1d_vec_u32`), alongside its wrap-free
value, and the two are related where they agree.
-/

namespace Mandelbrot

/-- Embedding of `std::complex<double>`: a pair of (exact) real and
imaginary components. -/
structure ComplexQ where
  re : ℚ
  im : ℚ
  deriving DecidableEq, Repr

/-- `std::complex` multiplication: `(a*b).re = a.re*b.re - a.im*b.im`,
`(a*b).im = a.re*b.im + a.im*b.re`. -/
def cMul (a b : ComplexQ) : ComplexQ :=
  ⟨a.re * b.re - a.im * b.im, a.re * b.im + a.im * b.re⟩

/-- `std::complex` addition, componentwise. -/
def cAdd (a b : ComplexQ) : ComplexQ :=
  ⟨a.re + b.re, a.im + b.im⟩

/-- The escape test `std::abs(z) > size` of `get_number_of_iterations`,
expressed without the square root: `|z| > size` iff `size < 0` or
`size² < z.re² + z.im²`. -/
def absGt (z : ComplexQ) (size : ℚ) : Bool :=
  decide (size < 0) || decide (size * size < z.re * z.re + z.im * z.im)

/-- The loop of `get_number_of_iterations` (src/main.cpp lines 27-34):
`fuel` counts the remaining iterations (`max - i`), `i` is the loop
counter, `z` the recurrence state.  When the loop exhausts its budget the
function falls through to `return max`. -/
def iterGo (z0 : ComplexQ) (size : ℚ) (maxIt : ℤ) : ℕ → ℤ → ComplexQ → ℤ
  | 0, _, _ => maxIt
  | fuel + 1, i, z =>
    if absGt z size then i
    else iterGo z0 size maxIt fuel (i + 1) (cAdd (cMul z z) z0)

/-- `get_number_of_iterations(z0, size, max)` (src/main.cpp lines 24-38):
`z := z0`; `for (i = 0; i < max; i++) { if (abs(z) > size) return i;
z = z*z + z0; }`; `return max`.  The C++ `for` loop with an `int` bound
executes `max.toNat` times (zero times when `max <= 0`). -/
def get_number_of_iterations (z0 : ComplexQ) (size : ℚ) (maxIt : ℤ) : ℤ :=
  iterGo z0 size maxIt maxIt.toNat 0 z0

/-- The wrap-free value of
`offset_in_interleaved_1d_vec<channel_count>(width, x, y, channel)`
(src/main.cpp lines 13-21): `(y * width + x) * channel_count + channel` over
unbounded naturals.  The C++ template computes this in `uint32_t`
(see `offset_in_interleaved_1d_vec_u32` below for the faithful wrapping
embedding); the two agree whenever the exact value is below `2^32`, which
holds in every defined execution of the generator (the allocation
`pixels_wide * pixels_wide` already overflows `int` for
`pixels_wide > 46340`). -/
def offset_in_interleaved_1d_vec (channel_count width x y channel : ℕ) : ℕ :=
  (y * width + x) * channel_count + channel

/-- `offset_in_interleaved_1d_vec<channel_count>(width, x, y, channel)`
(src/main.cpp lines 13-21) with the source's `uint32_t` arithmetic:
`(y * width + x) * channel_count + channel` where every operation wraps
modulo `2^32`.  Since `Nat.mod` commutes with `+` and `*`, a single final
reduction modulo `2^32` is exactly the value the chain of wrapping
operations produces. -/
def offset_in_interleaved_1d_vec_u32 (channel_count width x y channel : ℕ) : ℕ :=
  ((y * width + x) * channel_count + channel) % 2 ^ 32

/-- The `get_scaled_coordinate` lambda of `create_grayscale_mandelbrot_image`
(src/main.cpp lines 55-57): `center - (size / 2) + ((size * xy) / pixels_wide)`.
The lambda captures `size` and `pixels_wide` from the enclosing scope. -/
def get_scaled_coordinate (size : ℚ) (pixels_wide : ℤ) (center xy : ℚ) : ℚ :=
  center - size / 2 + size * xy / (pixels_wide : ℚ)

/-- The complex point `z = std::complex<double>(x0, y0)` built for pixel
`(x, y)` in the generator loop (src/main.cpp lines 64-69): both axes use the
same `get_scaled_coordinate` lambda, the x axis with `center_x` and the
y axis with `center_y`. -/
def pixelPoint (center_x center_y size : ℚ) (pixels_wide : ℤ) (x y : ℕ) : ComplexQ :=
  ⟨get_scaled_coordinate size pixels_wide center_x (x : ℚ),
   get_scaled_coordinate size pixels_wide center_y (y : ℚ)⟩

/-- The `int` value `gray = max_iterations - get_number_of_iterations(z, size,
max_iterations)` computed for pixel `(x, y)` (src/main.cpp line 70), before
the narrowing store. -/
def pixelGray (center_x center_y size : ℚ) (max_iterations pixels_wide : ℤ)
    (x y : ℕ) : ℤ :=
  max_iterations -
    get_number_of_iterations (pixelPoint center_x center_y size pixels_wide x y)
      size max_iterations

/-- The byte actually stored by `image[offset] = gray` (src/main.cpp line 76):
the C++ `int → uint8_t` conversion reduces the value modulo 256. -/
def pixelByte (center_x center_y size : ℚ) (max_iterations pixels_wide : ℤ)
    (x y : ℕ) : ℕ :=
  (pixelGray center_x center_y size max_iterations pixels_wide x y % 256).toNat

/-- `create_grayscale_mandelbrot_image` (src/main.cpp lines 45-81): allocate a
zero-initialized byte buffer of size `pixels_wide * pixels_wide`, then for each
row `y` and column `x` write the narrowed gray value at
`offset_in_interleaved_1d_vec<1>(pixels_wide, x, y, 0)`. -/
def create_grayscale_mandelbrot_image (center_x center_y size : ℚ)
    (max_iterations pixels_wide : ℤ) : List ℕ :=
  let w := pixels_wide.toNat
  (List.range w).foldl
    (fun image y =>
      (List.range w).foldl
        (fun image x =>
          image.set (offset_in_interleaved_1d_vec 1 w x y 0)
            (pixelByte center_x center_y size max_iterations pixels_wide x y))
        image)
    (List.replicate (pixels_wide * pixels_wide).toNat 0)

/-- Spec §4.1 CoordinateMapper, written from the spec's words:
`coordinate = center - size/2 + size * pixel_index / resolution`. -/
def CoordinateMapper (center size pixel_index : ℚ) (resolution : ℤ) : ℚ :=
  center - size / 2 + size * pixel_index / (resolution : ℚ)

/-- Spec §4.2 recurrence orbit, written from the spec's words: `z₀ := c`
(the non-canonical initialization), `z_{n+1} := z_n * z_n + c`. -/
def specZ (c : ComplexQ) : ℕ → ComplexQ
  | 0 => c
  | n + 1 => cAdd (cMul (specZ c n) (specZ c n)) c

/-- Spec §4.2 EscapeTimeEvaluator, written from the spec's words: the first
`i` in `0, …, max_iterations - 1` with `|z_i| > bound` if one exists,
otherwise `max_iterations`. -/
def spec_escape_time (c : ComplexQ) (bound : ℚ) (maxIt : ℤ) : ℤ :=
  match (List.range maxIt.toNat).find? (fun i => absGt (specZ c i) bound) with
  | some i => (i : ℤ)
  | none => maxIt

/-! ### Helper lemmas about the escape loop -/

/-- The loop with counter `k` and state `z_k` computes the first escaping
index among `k, …, k + fuel - 1`, defaulting to `maxIt`. -/
theorem iterGo_eq_find (c : ComplexQ) (bound : ℚ) (maxIt : ℤ) :
    ∀ (fuel k : ℕ),
      iterGo c bound maxIt fuel (k : ℤ) (specZ c k) =
        match (List.range' k fuel).find? (fun i => absGt (specZ c i) bound) with
        | some i => (i : ℤ)
        | none => maxIt := by
  intro fuel
  induction fuel with
  | zero => intro k; simp [iterGo]
  | succ n ih =>
    intro k
    rw [List.range'_succ]
    cases h : absGt (specZ c k) bound with
    | true => simp [iterGo, h]
    | false =>
      have hz : cAdd (cMul (specZ c k) (specZ c k)) c = specZ c (k + 1) := rfl
      have hcast : (k : ℤ) + 1 = ((k + 1 : ℕ) : ℤ) := by push_cast; ring
      have hfind : (k :: List.range' (k + 1) n).find? (fun i => absGt (specZ c i) bound) =
          (List.range' (k + 1) n).find? (fun i => absGt (specZ c i) bound) := by
        rw [List.find?_cons_of_neg]
        simp [h]
      simp only [iterGo, h, Bool.false_eq_true, if_false, hz, hcast, hfind]
      exact ih (k + 1)

/-- If the state escapes at the head of an iteration, the loop returns the
current counter. -/
theorem iterGo_escape (c : ComplexQ) (bound : ℚ) (maxIt : ℤ) (fuel : ℕ)
    (i : ℤ) (z : ComplexQ) (h : absGt z bound = true) :
    iterGo c bound maxIt (fuel + 1) i z = i := by
  simp [iterGo, h]

/-- Loop invariant: with `i + fuel = maxIt`, the result lies in `[i, maxIt]`. -/
theorem iterGo_bounds (c : ComplexQ) (bound : ℚ) (maxIt : ℤ) :
    ∀ (fuel : ℕ) (i : ℤ) (z : ComplexQ), i + fuel = maxIt →
      i ≤ iterGo c bound maxIt fuel i z ∧ iterGo c bound maxIt fuel i z ≤ maxIt := by
  intro fuel
  induction fuel with
  | zero => intro i z h; simp [iterGo]; omega
  | succ n ih =>
    intro i z h
    by_cases hb : absGt z bound = true
    · simp only [iterGo, hb, if_true]
      omega
    · simp only [iterGo, hb, Bool.false_eq_true, if_false]
      have := ih (i + 1) (cAdd (cMul z z) c) (by push_cast at h ⊢; omega)
      omega

/-- At the origin the state never escapes a nonnegative bound and never
changes, so the loop runs to completion. -/
theorem iterGo_zero_point (bound : ℚ) (maxIt : ℤ) (hb : 0 ≤ bound) :
    ∀ (fuel : ℕ) (i : ℤ), iterGo ⟨0, 0⟩ bound maxIt fuel i ⟨0, 0⟩ = maxIt := by
  intro fuel
  induction fuel with
  | zero => intro i; rfl
  | succ n ih =>
    intro i
    have h1 : absGt ⟨0, 0⟩ bound = false := by
      simp only [absGt, Bool.or_eq_false_iff, decide_eq_false_iff_not, not_lt]
      refine ⟨hb, ?_⟩
      nlinarith [mul_self_nonneg bound]
    have h2 : cAdd (cMul ⟨0, 0⟩ ⟨0, 0⟩) ⟨0, 0⟩ = (⟨0, 0⟩ : ComplexQ) := by
      simp [cMul, cAdd]
    simp only [iterGo, h1, Bool.false_eq_true, if_false, h2]
    exact ih (i + 1)

/-! ### Helper lemmas about the buffer folds -/

/-- A row of a pixel grid starts strictly below where the next rows start. -/
theorem rowLt {w x y n : ℕ} (hx : x < w) (hyn : y < n) : y * w + x < n * w := by
  calc y * w + x < y * w + w := by omega
    _ = (y + 1) * w := by ring
    _ ≤ n * w := Nat.mul_le_mul_right w (by omega)

/-- Folding `set` writes over a list does not change its length. -/
theorem foldl_set_length (v f : ℕ → ℕ) :
    ∀ (xs img : List ℕ),
      (xs.foldl (fun im i => im.set (f i) (v i)) img).length = img.length := by
  intro xs
  induction xs with
  | nil => intro img; rfl
  | cons a l ih => intro img; rw [List.foldl_cons, ih, List.length_set]

/-- A fold of `set` writes leaves untouched positions unchanged. -/
theorem foldl_set_untouched (v f : ℕ → ℕ) (j : ℕ) :
    ∀ (xs img : List ℕ), (∀ i ∈ xs, f i ≠ j) →
      (xs.foldl (fun im i => im.set (f i) (v i)) img)[j]? = img[j]? := by
  intro xs
  induction xs with
  | nil => intro img _; rfl
  | cons a l ih =>
    intro img h
    rw [List.foldl_cons, ih _ (fun i hi => h i (List.mem_cons_of_mem a hi)),
      List.getElem?_set_ne (h a (List.mem_cons_self a l))]

/-- After writing values `v 0, …, v (n-1)` at offsets `b, …, b + n - 1`,
position `b + x` holds `v x` for every in-bounds `x < n`. -/
theorem foldl_set_row (v : ℕ → ℕ) (b : ℕ) :
    ∀ (n : ℕ) (img : List ℕ) (x : ℕ), x < n → b + x < img.length →
      ((List.range n).foldl (fun im i => im.set (b + i) (v i)) img)[b + x]? =
        some (v x) := by
  intro n
  induction n with
  | zero => intro img x hx; omega
  | succ n ih =>
    intro img x hx hlen
    rw [List.range_succ, List.foldl_append, List.foldl_cons, List.foldl_nil]
    by_cases hxn : x = n
    · subst hxn
      have hl : b + x <
          ((List.range x).foldl (fun im i => im.set (b + i) (v i)) img).length := by
        rw [foldl_set_length]; exact hlen
      exact List.getElem?_set_eq_of_lt (v x) hl
    · rw [List.getElem?_set_ne (by omega : b + n ≠ b + x)]
      exact ih img x (by omega) hlen

/-- The double grid fold preserves the buffer length. -/
theorem grid_fold_length (v : ℕ → ℕ → ℕ) (w : ℕ) :
    ∀ (rows : ℕ) (img : List ℕ),
      ((List.range rows).foldl
        (fun im yy =>
          (List.range w).foldl (fun im2 xx => im2.set (yy * w + xx) (v xx yy)) im)
        img).length = img.length := by
  intro rows
  induction rows with
  | zero => intro img; rfl
  | succ n ih =>
    intro img
    rw [List.range_succ, List.foldl_append, List.foldl_cons, List.foldl_nil,
      foldl_set_length, ih]

/-- After writing the first `rows` rows of the grid into a `w * w` buffer,
position `y * w + x` of any already-written row holds its pixel value. -/
theorem grid_fold_get (v : ℕ → ℕ → ℕ) (w : ℕ) :
    ∀ (rows : ℕ) (img : List ℕ), img.length = w * w → rows ≤ w →
      ∀ x y : ℕ, x < w → y < rows →
        ((List.range rows).foldl
          (fun im yy =>
            (List.range w).foldl (fun im2 xx => im2.set (yy * w + xx) (v xx yy)) im)
          img)[y * w + x]? = some (v x y) := by
  intro rows
  induction rows with
  | zero => intro img _ _ x y _ hy; omega
  | succ n ih =>
    intro img hlen hrows x y hx hy
    rw [List.range_succ, List.foldl_append, List.foldl_cons, List.foldl_nil]
    by_cases hyn : y = n
    · subst hyn
      have hbx : y * w + x <
          ((List.range y).foldl
            (fun im yy =>
              (List.range w).foldl (fun im2 xx => im2.set (yy * w + xx) (v xx yy)) im)
            img).length := by
        rw [grid_fold_length, hlen]
        exact rowLt hx (by omega)
      exact foldl_set_row (fun xx => v xx y) (y * w) w _ x hx hbx
    · rw [foldl_set_untouched (fun xx => v xx n) (fun xx => n * w + xx) (y * w + x)
        (List.range w) _ ?_]
      · exact ih img hlen (by omega) x y hx (by omega)
      · intro i hi
        have hl : y * w + x < n * w := rowLt hx (by omega)
        show n * w + i ≠ y * w + x
        omega

/-- `create_grayscale_mandelbrot_image`, with the offset computation
`(y * w + x) * 1 + 0` simplified to `y * w + x`. -/
theorem create_eq_grid (cx cy size : ℚ) (m pw : ℤ) :
    create_grayscale_mandelbrot_image cx cy size m pw =
      (List.range pw.toNat).foldl
        (fun im yy =>
          (List.range pw.toNat).foldl
            (fun im2 xx => im2.set (yy * pw.toNat + xx)
              (pixelByte cx cy size m pw xx yy)) im)
        (List.replicate (pw * pw).toNat 0) := by
  simp [create_grayscale_mandelbrot_image, offset_in_interleaved_1d_vec]

/-- For a positive pixel count the allocated size `pixels_wide * pixels_wide`
is the square of the row length. -/
theorem alloc_toNat {pw : ℤ} (hpw : 0 ≤ pw) :
    (pw * pw).toNat = pw.toNat * pw.toNat := by
  rcases Int.eq_ofNat_of_zero_le hpw with ⟨n, rfl⟩
  rw [← Int.natCast_mul, Int.toNat_natCast, Int.toNat_natCast]

/-! ### Claim theorems -/

/-- C2: `get_number_of_iterations(c, bound, max_iterations)` implements exactly
the spec's algorithm: `z` starts at `c` (not `0`), each step `i` first tests
`|z| > bound` and returns `i` on escape, otherwise updates `z := z*z + c`, and
a completed loop returns `max_iterations`; in particular the first bound check
tests `|c|` itself, so an initially escaping `c` yields `0`. -/
theorem C2_evaluator_algorithm (c : ComplexQ) (bound : ℚ) (m : ℤ) :
    get_number_of_iterations c bound m = spec_escape_time c bound m ∧
    (0 < m → absGt c bound = true → get_number_of_iterations c bound m = 0) := by
  constructor
  · have h := iterGo_eq_find c bound m m.toNat 0
    simpa [get_number_of_iterations, spec_escape_time, List.range_eq_range'] using h
  · intro hm hesc
    obtain ⟨k, hk⟩ : ∃ k, m.toNat = k + 1 := ⟨m.toNat - 1, by omega⟩
    rw [get_number_of_iterations, hk]
    simp [iterGo, hesc]

/-- C2 witness: concrete instantiation at `c = (3, 0)`, `bound = 2`,
`max_iterations = 5`. -/
theorem C2_evaluator_algorithm_witness :
    get_number_of_iterations ⟨3, 0⟩ 2 5 = spec_escape_time ⟨3, 0⟩ 2 5 ∧
    (0 < (5 : ℤ) → absGt ⟨3, 0⟩ 2 = true → get_number_of_iterations ⟨3, 0⟩ 2 5 = 0) :=
  C2_evaluator_algorithm ⟨3, 0⟩ 2 5

/-- C3: for every point and bound, with `max_iterations > 0` the evaluator
returns a value in `[0, max_iterations]`, and consequently every gray value
`max_iterations - iterations` computed by the generator, before byte
narrowing, lies in `[0, max_iterations]`. -/
theorem C3_result_range (c : ComplexQ) (bound : ℚ) (m : ℤ) (hm : 0 < m) :
    (0 ≤ get_number_of_iterations c bound m ∧ get_number_of_iterations c bound m ≤ m) ∧
    ∀ (cx cy size : ℚ) (pw : ℤ) (x y : ℕ),
      0 ≤ pixelGray cx cy size m pw x y ∧ pixelGray cx cy size m pw x y ≤ m := by
  have key : ∀ (c' : ComplexQ) (b' : ℚ),
      0 ≤ get_number_of_iterations c' b' m ∧ get_number_of_iterations c' b' m ≤ m := by
    intro c' b'
    have h := iterGo_bounds c' b' m m.toNat 0 c' (by omega)
    simpa [get_number_of_iterations] using h
  refine ⟨key c bound, fun cx cy size pw x y => ?_⟩
  have h := key (pixelPoint cx cy size pw x y) size
  unfold pixelGray
  omega

/-- C3 witness: concrete instantiation at `c = (3, 0)`, `bound = 2`,
`max_iterations = 3`. -/
theorem C3_result_range_witness :
    (0 : ℤ) < 3 ∧
    ((0 ≤ get_number_of_iterations ⟨3, 0⟩ 2 3 ∧ get_number_of_iterations ⟨3, 0⟩ 2 3 ≤ 3) ∧
     ∀ (cx cy size : ℚ) (pw : ℤ) (x y : ℕ),
       0 ≤ pixelGray cx cy size 3 pw x y ∧ pixelGray cx cy size 3 pw x y ≤ 3) :=
  ⟨by norm_num, C3_result_range ⟨3, 0⟩ 2 3 (by norm_num)⟩

/-- C6: at `c = (0, 0)` with any positive bound and `max_iterations = 255`
the evaluator returns `255`: the origin never escapes, since `|0| > bound`
is false and `0*0 + 0 = 0` keeps the state at zero through every step. -/
theorem C6_origin_bounded (bound : ℚ) (hb : 0 < bound) :
    get_number_of_iterations ⟨0, 0⟩ bound 255 = 255 := by
  have h := iterGo_zero_point bound 255 (le_of_lt hb) ((255 : ℤ).toNat) 0
  simpa [get_number_of_iterations] using h

/-- C6 witness: concrete instantiation at `bound = 1`. -/
theorem C6_origin_bounded_witness :
    (0 : ℚ) < 1 ∧ get_number_of_iterations ⟨0, 0⟩ 1 255 = 255 :=
  ⟨by norm_num, C6_origin_bounded 1 (by norm_num)⟩

/-- The wrap-free offset value is in-bounds on the pixel grid and injective
on pixel coordinates. -/
theorem offset_unbounded_safe (w x1 y1 x2 y2 : ℕ)
    (hx1 : x1 < w) (hy1 : y1 < w) (hx2 : x2 < w) (hy2 : y2 < w) :
    offset_in_interleaved_1d_vec 1 w x1 y1 0 < w * w ∧
    ((x1, y1) ≠ (x2, y2) →
      offset_in_interleaved_1d_vec 1 w x1 y1 0 ≠
        offset_in_interleaved_1d_vec 1 w x2 y2 0) := by
  simp only [offset_in_interleaved_1d_vec, mul_one, add_zero]
  constructor
  · exact rowLt hx1 hy1
  · intro hne heq
    have hy : y1 = y2 := by
      rcases Nat.lt_trichotomy y1 y2 with h | h | h
      · have := rowLt hx1 h
        omega
      · exact h
      · have := rowLt hx2 h
        omega
    subst hy
    have hx : x1 = x2 := by omega
    exact hne (by rw [hx])

/-- Below `pixels_wide = 65537` the `uint32_t` offset computation cannot
wrap, so it agrees with the wrap-free value on the pixel grid. -/
theorem offset_u32_eq_unbounded (w x y : ℕ) (hw32 : w ≤ 65536)
    (hx : x < w) (hy : y < w) :
    offset_in_interleaved_1d_vec_u32 1 w x y 0 =
      offset_in_interleaved_1d_vec 1 w x y 0 := by
  unfold offset_in_interleaved_1d_vec_u32 offset_in_interleaved_1d_vec
  apply Nat.mod_eq_of_lt
  have h2 : y * w + x < w * w := rowLt hx hy
  calc (y * w + x) * 1 + 0 = y * w + x := by ring
    _ < w * w := h2
    _ ≤ 65536 * 65536 := Nat.mul_le_mul hw32 hw32
    _ = 2 ^ 32 := by norm_num

/-- C9 counterexample: the claimed injectivity for every `pixels_wide > 0`
is false of the source's `uint32_t` arithmetic.  At `pixels_wide = 2^17 =
131072` the distinct in-range pixels `(0, 0)` and `(0, 32768)` collide:
`32768 * 131072 = 2^32` wraps to offset `0`. -/
theorem C9_counterexample :
    (0 : ℕ) < 131072 ∧ (0 : ℕ) < 131072 ∧ (32768 : ℕ) < 131072 ∧
    ((0 : ℕ), (0 : ℕ)) ≠ ((0 : ℕ), (32768 : ℕ)) ∧
    offset_in_interleaved_1d_vec_u32 1 131072 0 0 0 =
      offset_in_interleaved_1d_vec_u32 1 131072 0 32768 0 := by
  decide

/-- C9 (amended): for every `pixels_wide` with `0 < pixels_wide ≤ 65536` —
the exact range in which the `uint32_t` offset computation cannot wrap —
the offset function used by the generator agrees with the wrap-free value,
every offset on the pixel grid is strictly below `pixels_wide * pixels_wide`,
and distinct pixel coordinates map to distinct buffer offsets. -/
theorem C9_offsets_safe_u32 (w x1 y1 x2 y2 : ℕ) (hw : 0 < w) (hw32 : w ≤ 65536)
    (hx1 : x1 < w) (hy1 : y1 < w) (hx2 : x2 < w) (hy2 : y2 < w) :
    offset_in_interleaved_1d_vec_u32 1 w x1 y1 0 =
      offset_in_interleaved_1d_vec 1 w x1 y1 0 ∧
    offset_in_interleaved_1d_vec_u32 1 w x1 y1 0 < w * w ∧
    ((x1, y1) ≠ (x2, y2) →
      offset_in_interleaved_1d_vec_u32 1 w x1 y1 0 ≠
        offset_in_interleaved_1d_vec_u32 1 w x2 y2 0) := by
  have h1 := offset_u32_eq_unbounded w x1 y1 hw32 hx1 hy1
  have h2 := offset_u32_eq_unbounded w x2 y2 hw32 hx2 hy2
  have h3 := offset_unbounded_safe w x1 y1 x2 y2 hx1 hy1 hx2 hy2
  refine ⟨h1, ?_, fun hne => ?_⟩
  · rw [h1]
    exact h3.1
  · rw [h1, h2]
    exact h3.2 hne

/-- C9 witness: concrete instantiation at `w = 4`, pixels `(1, 2)` and
`(2, 1)`. -/
theorem C9_offsets_safe_u32_witness :
    0 < 4 ∧ 4 ≤ 65536 ∧
    (offset_in_interleaved_1d_vec_u32 1 4 1 2 0 =
       offset_in_interleaved_1d_vec 1 4 1 2 0 ∧
     offset_in_interleaved_1d_vec_u32 1 4 1 2 0 < 4 * 4 ∧
     (((1 : ℕ), (2 : ℕ)) ≠ ((2 : ℕ), (1 : ℕ)) →
       offset_in_interleaved_1d_vec_u32 1 4 1 2 0 ≠
         offset_in_interleaved_1d_vec_u32 1 4 2 1 0)) :=
  ⟨by decide, by decide,
   C9_offsets_safe_u32 4 1 2 2 1 (by decide) (by decide) (by decide) (by decide)
     (by decide) (by decide)⟩

/-- C10: for `max_iterations ≤ 0` the `for` loop of
`get_number_of_iterations` executes zero times and the function returns
`max_iterations` unconditionally; a negative value is returned as-is, so the
documented range `[0, max_iterations]` needs `max_iterations > 0`. -/
theorem C10_nonpositive_max (c : ComplexQ) (size : ℚ) (m : ℤ) (hm : m ≤ 0) :
    get_number_of_iterations c size m = m := by
  have h : m.toNat = 0 := by omega
  rw [get_number_of_iterations, h]
  rfl

/-- C10 witness: concrete instantiation at `c = (1, 1)`, `size = 2`,
`max_iterations = -3`. -/
theorem C10_nonpositive_max_witness :
    (-3 : ℤ) ≤ 0 ∧ get_number_of_iterations ⟨1, 1⟩ 2 (-3) = -3 :=
  ⟨by norm_num, C10_nonpositive_max ⟨1, 1⟩ 2 (-3) (by norm_num)⟩

/-- C1: for a valid window and grid, `create_grayscale_mandelbrot_image`
returns a buffer of length `pixels_wide * pixels_wide` in which the byte at
offset `y * pixels_wide + x` is `max_iterations - get_number_of_iterations(c,
size, max_iterations)` narrowed to one byte, where `c` has real part
`get_scaled_coordinate` of `x` with `center_x` and imaginary part
`get_scaled_coordinate` of `y` with `center_y`, and the evaluator's bound is
the window `size`. -/
theorem C1_buffer_layout (cx cy size : ℚ) (m pw : ℤ) (x y : ℕ)
    (hs : 0 < size) (hm : 0 < m) (hpw : 0 < pw)
    (hx : x < pw.toNat) (hy : y < pw.toNat) :
    (create_grayscale_mandelbrot_image cx cy size m pw).length =
      pw.toNat * pw.toNat ∧
    (create_grayscale_mandelbrot_image cx cy size m pw)[y * pw.toNat + x]? =
      some (((m - get_number_of_iterations
        ⟨get_scaled_coordinate size pw cx (x : ℚ),
         get_scaled_coordinate size pw cy (y : ℚ)⟩ size m) % 256).toNat) := by
  constructor
  · rw [create_eq_grid, grid_fold_length, List.length_replicate,
      alloc_toNat (le_of_lt hpw)]
  · rw [create_eq_grid]
    exact grid_fold_get (fun xx yy => pixelByte cx cy size m pw xx yy)
      pw.toNat pw.toNat _
      (by rw [List.length_replicate, alloc_toNat (le_of_lt hpw)]) le_rfl x y hx hy

/-- C1 witness: concrete instantiation at `center = (0, 0)`, `size = 2`,
`max_iterations = 2`, `pixels_wide = 1`, pixel `(0, 0)`. -/
theorem C1_buffer_layout_witness :
    (0 : ℚ) < 2 ∧ (0 : ℤ) < 2 ∧ (0 : ℤ) < 1 ∧
    ((create_grayscale_mandelbrot_image 0 0 2 2 1).length =
       (1 : ℤ).toNat * (1 : ℤ).toNat ∧
     (create_grayscale_mandelbrot_image 0 0 2 2 1)[0 * (1 : ℤ).toNat + 0]? =
       some (((2 - get_number_of_iterations
         ⟨get_scaled_coordinate 2 1 0 ((0 : ℕ) : ℚ),
          get_scaled_coordinate 2 1 0 ((0 : ℕ) : ℚ)⟩ 2 2) % 256).toNat)) :=
  ⟨by norm_num, by norm_num, by norm_num,
   C1_buffer_layout 0 0 2 2 1 0 0 (by norm_num) (by norm_num) (by norm_num)
     (by decide) (by decide)⟩

/-- C4: the generator's coordinate mapping equals the spec's
CoordinateMapper formula `center - size/2 + size * pixel_index / resolution`
with `resolution = pixels_wide`, and the same formula (same `size` and
`resolution`) is applied to the x axis with `center_x` and to the y axis
with `center_y` when the generator builds a pixel's complex point. -/
theorem C4_coordinate_mapping (center size : ℚ) (pw : ℤ) (xy : ℚ)
    (hs : 0 < size) (hpw : 0 < pw) :
    get_scaled_coordinate size pw center xy = CoordinateMapper center size xy pw ∧
    CoordinateMapper center size xy pw = center - size / 2 + size * xy / (pw : ℚ) ∧
    ∀ (cx cy : ℚ) (x y : ℕ),
      pixelPoint cx cy size pw x y =
        ⟨CoordinateMapper cx size (x : ℚ) pw, CoordinateMapper cy size (y : ℚ) pw⟩ :=
  ⟨rfl, rfl, fun _ _ _ _ => rfl⟩

/-- C4 witness: concrete instantiation at `center = 0`, `size = 2`,
`pixels_wide = 2`, `pixel_index = 1`. -/
theorem C4_coordinate_mapping_witness :
    (0 : ℚ) < 2 ∧ (0 : ℤ) < 2 ∧
    (get_scaled_coordinate 2 2 0 1 = CoordinateMapper 0 2 1 2 ∧
     CoordinateMapper 0 2 1 2 = 0 - 2 / 2 + 2 * 1 / ((2 : ℤ) : ℚ) ∧
     ∀ (cx cy : ℚ) (x y : ℕ),
       pixelPoint cx cy 2 2 x y =
         ⟨CoordinateMapper cx 2 (x : ℚ) 2, CoordinateMapper cy 2 (y : ℚ) 2⟩) :=
  ⟨by norm_num, by norm_num, C4_coordinate_mapping 0 2 2 1 (by norm_num) (by norm_num)⟩

/-- C5 counterexample: at `center = (1, 1)`, `size = 2`, `max_iterations = 5`,
`pixels_wide = 1`, pixel `(0, 0)` maps to `c = (0, 0)`, which stays bounded
(the evaluator returns `max_iterations = 5`), yet the stored intensity is `0`
(the dark floor), not the claimed maximal value `max_iterations`. -/
theorem C5_counterexample :
    pixelPoint 1 1 2 1 0 0 = ⟨0, 0⟩ ∧
    get_number_of_iterations (pixelPoint 1 1 2 1 0 0) 2 5 = 5 ∧
    (create_grayscale_mandelbrot_image 1 1 2 5 1)[0]? = some 0 ∧
    (0 : ℕ) ≠ (5 : ℤ).toNat := by
  have hpt : pixelPoint 1 1 2 1 0 0 = ⟨0, 0⟩ := by
    simp only [pixelPoint, get_scaled_coordinate, ComplexQ.mk.injEq]
    norm_num
  have hit : get_number_of_iterations (pixelPoint 1 1 2 1 0 0) 2 5 = 5 := by
    rw [hpt]
    simpa [get_number_of_iterations] using
      iterGo_zero_point 2 5 (by norm_num) ((5 : ℤ).toNat) 0
  have hbyte : pixelByte 1 1 2 5 1 0 0 = 0 := by
    unfold pixelByte pixelGray
    rw [hit]
    decide
  have hcreate : create_grayscale_mandelbrot_image 1 1 2 5 1 =
      [pixelByte 1 1 2 5 1 0 0] := by
    rw [create_eq_grid]
    rfl
  refine ⟨hpt, hit, ?_, by decide⟩
  rw [hcreate, hbyte]
  rfl

/-- C5 (amended): the generator's intensity map is inverted with respect to
the claim: a pixel whose evaluator result equals `max_iterations` (bounded)
is stored at the dark floor `0`, and a pixel that escapes immediately
(evaluator result `0`) is stored at the bright-saturating value
`max_iterations`; in general the intensity is `max_iterations - iterations`,
so quick escapes are bright and bounded points are darkest. -/
theorem C5_amended_intensity (cx cy size : ℚ) (m pw : ℤ) (x y : ℕ) (hm : 0 < m) :
    (get_number_of_iterations (pixelPoint cx cy size pw x y) size m = m →
      pixelGray cx cy size m pw x y = 0) ∧
    (get_number_of_iterations (pixelPoint cx cy size pw x y) size m = 0 →
      pixelGray cx cy size m pw x y = m) := by
  unfold pixelGray
  omega

/-- C5 witness: concrete instantiation at `center = (1, 1)`, `size = 2`,
`max_iterations = 5`, `pixels_wide = 1`, pixel `(0, 0)`. -/
theorem C5_amended_intensity_witness :
    (0 : ℤ) < 5 ∧
    ((get_number_of_iterations (pixelPoint 1 1 2 1 0 0) 2 5 = 5 →
       pixelGray 1 1 2 5 1 0 0 = 0) ∧
     (get_number_of_iterations (pixelPoint 1 1 2 1 0 0) 2 5 = 0 →
       pixelGray 1 1 2 5 1 0 0 = 5)) :=
  ⟨by norm_num, C5_amended_intensity 1 1 2 5 1 0 0 (by norm_num)⟩

/-- C7: the byte stored for a pixel is `(max_iterations - iterations)`
reduced modulo 256: the `int → uint8_t` narrowing in the buffer write is
modular (wraparound), not saturating — every stored byte is `< 256` and
congruent to the gray value modulo 256, also when `max_iterations > 255`. -/
theorem C7_modular_narrowing (cx cy size : ℚ) (m pw : ℤ) (x y : ℕ)
    (hmax : 255 < m) (hpw : 0 < pw) (hx : x < pw.toNat) (hy : y < pw.toNat) :
    (create_grayscale_mandelbrot_image cx cy size m pw)[y * pw.toNat + x]? =
      some ((pixelGray cx cy size m pw x y % 256).toNat) ∧
    ∀ b : ℕ,
      (create_grayscale_mandelbrot_image cx cy size m pw)[y * pw.toNat + x]? =
        some b →
      (b : ℤ) % 256 = pixelGray cx cy size m pw x y % 256 ∧ b < 256 := by
  have hget : (create_grayscale_mandelbrot_image cx cy size m pw)[y * pw.toNat + x]? =
      some (pixelByte cx cy size m pw x y) := by
    rw [create_eq_grid]
    exact grid_fold_get (fun xx yy => pixelByte cx cy size m pw xx yy)
      pw.toNat pw.toNat _
      (by rw [List.length_replicate, alloc_toNat (le_of_lt hpw)]) le_rfl x y hx hy
  refine ⟨hget, fun b hb => ?_⟩
  rw [hget, Option.some_inj] at hb
  subst hb
  unfold pixelByte
  omega

/-- C7 witness: at `center = (10, 10)`, `size = 2`, `max_iterations = 300`,
`pixels_wide = 1`, pixel `(0, 0)` maps to `c = (9, 9)`, which escapes
immediately, so the gray value is `300` and the stored byte is
`300 mod 256 = 44` — wraparound, not saturation at `255`. -/
theorem C7_modular_narrowing_witness :
    (255 : ℤ) < 300 ∧ (0 : ℤ) < 1 ∧
    ((create_grayscale_mandelbrot_image 10 10 2 300 1)[0 * (1 : ℤ).toNat + 0]? =
       some ((pixelGray 10 10 2 300 1 0 0 % 256).toNat) ∧
     ∀ b : ℕ,
       (create_grayscale_mandelbrot_image 10 10 2 300 1)[0 * (1 : ℤ).toNat + 0]? =
         some b →
       (b : ℤ) % 256 = pixelGray 10 10 2 300 1 0 0 % 256 ∧ b < 256) ∧
    pixelGray 10 10 2 300 1 0 0 = 300 ∧
    (pixelGray 10 10 2 300 1 0 0 % 256).toNat = 44 ∧ (44 : ℕ) ≠ 255 := by
  have hpt : pixelPoint 10 10 2 1 0 0 = ⟨9, 9⟩ := by
    simp only [pixelPoint, get_scaled_coordinate, ComplexQ.mk.injEq]
    norm_num
  have h9 : absGt ⟨9, 9⟩ 2 = true := by
    simp only [absGt, Bool.or_eq_true, decide_eq_true_eq]
    norm_num
  have hgray : pixelGray 10 10 2 300 1 0 0 = 300 := by
    unfold pixelGray
    rw [hpt, get_number_of_iterations,
      (by decide : ((300 : ℤ).toNat = 299 + 1)), iterGo_escape
       ⟨9, 9⟩ 2 300 299 0 ⟨9, 9⟩ h9]
    decide
  refine ⟨by norm_num, by norm_num,
    C7_modular_narrowing 10 10 2 300 1 0 0 (by norm_num) (by norm_num)
      (by decide) (by decide),
    hgray, ?_, by decide⟩
  rw [hgray]
  decide

/-- C8: `create_grayscale_mandelbrot_image` is deterministic — two
invocations with identical arguments produce byte-identical buffers (the
embedding is a pure function of its five arguments). -/
theorem C8_deterministic (cx1 cy1 size1 : ℚ) (m1 pw1 : ℤ)
    (cx2 cy2 size2 : ℚ) (m2 pw2 : ℤ)
    (h1 : cx1 = cx2) (h2 : cy1 = cy2) (h3 : size1 = size2)
    (h4 : m1 = m2) (h5 : pw1 = pw2) :
    create_grayscale_mandelbrot_image cx1 cy1 size1 m1 pw1 =
      create_grayscale_mandelbrot_image cx2 cy2 size2 m2 pw2 := by
  rw [h1, h2, h3, h4, h5]

/-- C8 witness: concrete instantiation at `center = (0, 0)`, `size = 2`,
`max_iterations = 2`, `pixels_wide = 1`. -/
theorem C8_deterministic_witness :
    (0 : ℚ) = 0 ∧
    create_grayscale_mandelbrot_image 0 0 2 2 1 =
      create_grayscale_mandelbrot_image 0 0 2 2 1 :=
  ⟨rfl, C8_deterministic 0 0 2 2 1 0 0 2 2 1 rfl rfl rfl rfl rfl⟩

end Mandelbrot
